import Mathlib

/-!
Verification of the stay-days calculation engine of the traveldays
repository (src/streamlit_app.py).

Dates are modelled by their proleptic Gregorian ordinals (as in the
Python datetime module: day 1 is January 1 of year 1), embedded in the integers.
Subtraction of two dates in the source, which yields a timedelta measured
in whole days, corresponds to integer subtraction of ordinals.

The embedding below follows the source line by line:
* interval validation and per-range results (lines 60-91),
* the annual total (line 99),
* the longest single stay (lines 42 and 67),
* the day expansion, dedup-sort, and two-pointer sliding window of the
  rolling 365-day maximum (lines 144-177).
-/

namespace TravelDays

/-- Gregorian leap-year test, as calendar.isleap of Python. -/
def isLeap (y : ℕ) : Bool :=
  y % 4 == 0 && (y % 100 != 0 || y % 400 == 0)

/-- Length of month m (1..12) of year y. -/
def daysInMonth (y m : ℕ) : ℕ :=
  if m = 2 then (if isLeap y then 29 else 28)
  else if m = 4 ∨ m = 6 ∨ m = 9 ∨ m = 11 then 30
  else 31

/-- Number of days in the months strictly before month m of year y. -/
def daysBeforeMonth (y m : ℕ) : ℕ :=
  ((List.range (m - 1)).map (fun k => daysInMonth y (k + 1))).sum

/-- Number of days in the years strictly before year y (y >= 1). -/
def daysBeforeYear (y : ℕ) : ℕ :=
  (y - 1) * 365 + (y - 1) / 4 - (y - 1) / 100 + (y - 1) / 400

/-- Proleptic Gregorian ordinal of the calendar date y-m-d, as
date.toordinal of Python: January 1 of year 1 is day 1. -/
def toOrdinal (y m d : ℕ) : ℤ :=
  ((daysBeforeYear y + daysBeforeMonth y m + d : ℕ) : ℤ)

/-- Ordinal of January 1 of the target year (line 73 of the source). -/
def yearStart (y : ℕ) : ℤ := toOrdinal y 1 1

/-- Ordinal of December 31 of the target year (line 74 of the source). -/
def yearEnd (y : ℕ) : ℤ := toOrdinal y 12 31

/-- Per-range output row: the validity flag, the continuous stay length
and the number of days falling inside the target year, mirroring the
fields the source stores for each range (lines 60-91). -/
structure RangeResult where
  validityError : Bool
  stayLength : ℤ
  daysInYear : ℤ
  deriving Repr, DecidableEq

/-- Processing of one raw (start, end) range for target year Y,
following lines 60-91 of the source: a range with end < start is flagged
and contributes zero days; otherwise the stay length is
(end - start).days + 1 and the annual contribution is the inclusive size
of the intersection with the target year. -/
def processRange (Y : ℕ) (r : ℤ × ℤ) : RangeResult :=
  if r.2 < r.1 then
    { validityError := true, stayLength := 0, daysInYear := 0 }
  else
    { validityError := false
      stayLength := r.2 - r.1 + 1
      daysInYear :=
        if max r.1 (yearStart Y) > min r.2 (yearEnd Y) then 0
        else min r.2 (yearEnd Y) - max r.1 (yearStart Y) + 1 }

/-- The list valid_intervals built at lines 41 and 70: the input ranges
that do not fail the end < start check, in input order. -/
def validIntervals (rs : List (ℤ × ℤ)) : List (ℤ × ℤ) :=
  rs.filter (fun r => !decide (r.2 < r.1))

/-- One update of the running maximum longest_single_stay (line 67):
invalid ranges leave the accumulator unchanged, valid ranges take the
maximum with the inclusive stay length. -/
def longStep (acc : ℤ) (r : ℤ × ℤ) : ℤ :=
  if r.2 < r.1 then acc else max acc (r.2 - r.1 + 1)

/-- longest_single_stay (lines 42 and 67): a running maximum over the
stay lengths of the valid ranges, starting from 0. -/
def longestSingleStay (rs : List (ℤ × ℤ)) : ℤ :=
  rs.foldl longStep 0

/-- The per-interval annual contribution as the specification words it:
clamp the interval to the target year and count inclusively, zero when
the clamped interval is empty. -/
def annualContribution (Y : ℕ) (r : ℤ × ℤ) : ℤ :=
  if max r.1 (yearStart Y) > min r.2 (yearEnd Y) then 0
  else min r.2 (yearEnd Y) - max r.1 (yearStart Y) + 1

/-- total_days (line 99): the sum of the per-range daysInYear entries of
the trip_data table, invalid rows contributing 0. -/
def totalDays (Y : ℕ) (rs : List (ℤ × ℤ)) : ℤ :=
  (rs.map (fun r => (processRange Y r).daysInYear)).sum

/-- The all_days list before dedup (lines 150-154): every valid interval
expanded into the days start, start+1, ..., end, concatenated in order. -/
def allDaysList (rs : List (ℤ × ℤ)) : List ℤ :=
  (validIntervals rs).flatMap
    (fun r => (List.range ((r.2 - r.1).toNat + 1)).map (fun d : ℕ => r.1 + (d : ℤ)))

/-- Insert x into an already strictly sorted list, keeping it strictly
sorted and dropping x if it is already present. -/
def insertDedup (x : ℤ) : List ℤ → List ℤ
  | [] => [x]
  | y :: t => if x < y then x :: y :: t else if x = y then y :: t else y :: insertDedup x t

/-- sorted(set(l)) of Python (line 156): the distinct elements of l in
strictly increasing order. -/
def sortDedup (l : List ℤ) : List ℤ :=
  l.foldr insertDedup []

/-- The deduplicated, ascending all_days sequence of line 156. -/
def allDays (rs : List (ℤ × ℤ)) : List ℤ :=
  sortDedup (allDaysList rs)

/-- The covered-day set: every calendar day touched by at least one
valid interval, the set that set(all_days) in the source denotes. -/
def coveredDays (rs : List (ℤ × ℤ)) : Finset ℤ :=
  (allDaysList rs).toFinset

/-- The inner while loop of lines 167-168: starting from index j, with
di the day at the left pointer, advance j while j < n and
D[j] - di <= 364. The fuel argument bounds the recursion; the caller
passes at least n - j, which suffices for the loop to run to its exit
condition. -/
def advJ (D : List ℤ) (di : ℤ) : ℕ → ℕ → ℕ
  | 0, j => j
  | fuel + 1, j =>
      if j < D.length ∧ D.getD j 0 - di ≤ 364 then advJ D di fuel (j + 1) else j

/-- One iteration of the outer while loop (lines 166-174) at left
pointer i. The state is (j, max_days_365, max_i, max_j). -/
def tpStep (D : List ℤ) (st : ℕ × ℕ × ℕ × ℕ) (i : ℕ) : ℕ × ℕ × ℕ × ℕ :=
  let jNew := advJ D (D.getD i 0) (D.length - st.1) st.1
  if jNew - i > st.2.1 then (jNew, jNew - i, i, jNew - 1)
  else (jNew, st.2.1, st.2.2.1, st.2.2.2)

/-- The full two-pointer scan of lines 160-174: i runs over 0..n-1 from
the initial state i = j = 0, max_days_365 = max_i = max_j = 0. -/
def tpRun (D : List ℤ) : ℕ × ℕ × ℕ × ℕ :=
  (List.range D.length).foldl (tpStep D) (0, 0, 0, 0)

/-- The rolling-window result (lines 144-177): max_days_365 together
with the optional window bounds all_days[max_i] and all_days[max_j].
When there is no valid interval, or the expanded day list is empty, the
defaults of lines 144-146 are returned unchanged. -/
def rollingMax (rs : List (ℤ × ℤ)) : ℕ × Option ℤ × Option ℤ :=
  if validIntervals rs = [] then (0, none, none)
  else
    let D := allDays rs
    if D = [] then (0, none, none)
    else
      let st := tpRun D
      (st.2.1, some (D.getD st.2.2.1 0), some (D.getD st.2.2.2 0))

/-- The reported rolling-window maximum max_days_365. -/
def maxDays365 (rs : List (ℤ × ℤ)) : ℕ :=
  (rollingMax rs).1

/-- Reference definition of the rolling-window maximum, straight from
the specification: the maximum of j - i + 1 over all index pairs
0 <= i <= j < n with D[j] - D[i] <= 364, and 0 when no pair qualifies. -/
def refMax (D : List ℤ) : ℕ :=
  ((Finset.range D.length) ×ˢ (Finset.range D.length)).sup
    (fun p =>
      if p.1 ≤ p.2 ∧ D.getD p.2 0 - D.getD p.1 0 ≤ 364 then p.2 - p.1 + 1 else 0)

/-- The number of covered days falling in the window [a, a + 364]. -/
def windowCount (S : Finset ℤ) (a : ℤ) : ℕ :=
  (S.filter (fun d => a ≤ d ∧ d ≤ a + 364)).card

/-- Set-level rolling maximum: the best count of covered days over all
365-day windows anchored at a covered day. -/
def setMax (S : Finset ℤ) : ℕ :=
  S.sup (fun a => windowCount S a)

/-- The index where the inner loop stops when the left pointer reads
value di: the least index at which the 365-day span constraint fails. -/
def stopFrom (D : List ℤ) (di : ℤ) : ℕ :=
  advJ D di D.length 0

/-- The stopping index of the inner loop for left pointer i. -/
def stopIdx (D : List ℤ) (i : ℕ) : ℕ :=
  stopFrom D (D.getD i 0)

/-- Characterisation of an inner-loop stopping index for value di. -/
def IsStop (D : List ℤ) (di : ℤ) (r : ℕ) : Prop :=
  r ≤ D.length ∧ (∀ k, k < r → D.getD k 0 - di ≤ 364) ∧
    (r < D.length → 364 < D.getD r 0 - di)

/-- Loop invariant for the outer two-pointer scan, holding after the
iterations for the left pointers 0, ..., i-1 have run. The state is
(j, max_days_365, max_i, max_j). -/
def TPInv (D : List ℤ) (i : ℕ) (st : ℕ × ℕ × ℕ × ℕ) : Prop :=
  st.1 ≤ D.length ∧
  (∀ k, k < st.1 → i < D.length → D.getD k 0 - D.getD i 0 ≤ 364) ∧
  st.2.1 = (Finset.range i).sup (fun q => stopIdx D q - q) ∧
  (0 < i → st.2.2.1 < i ∧ st.2.1 = stopIdx D st.2.2.1 - st.2.2.1 ∧
    st.2.2.2 = stopIdx D st.2.2.1 - 1)

theorem mem_insertDedup {x a : ℤ} {l : List ℤ} :
    x ∈ insertDedup a l ↔ x = a ∨ x ∈ l := by
  induction l with
  | nil => simp [insertDedup]
  | cons y t ih =>
      by_cases h1 : a < y
      · simp [insertDedup, h1]
      · by_cases h2 : a = y
        · subst h2
          rw [insertDedup, if_neg h1, if_pos rfl]
          simp only [List.mem_cons]
          tauto
        · simp only [insertDedup, if_neg h1, if_neg h2, List.mem_cons, ih]
          tauto

theorem sorted_insertDedup {a : ℤ} {l : List ℤ}
    (h : List.Sorted (· < ·) l) : List.Sorted (· < ·) (insertDedup a l) := by
  induction l with
  | nil => simp [insertDedup]
  | cons y t ih =>
      rw [List.sorted_cons] at h
      by_cases h1 : a < y
      · rw [insertDedup, if_pos h1, List.sorted_cons]
        refine ⟨?_, List.sorted_cons.mpr h⟩
        intro b hb
        rcases List.mem_cons.mp hb with hb | hb
        · omega
        · exact lt_trans h1 (h.1 b hb)
      · by_cases h2 : a = y
        · rw [insertDedup, if_neg h1, if_pos h2]
          exact List.sorted_cons.mpr h
        · rw [insertDedup, if_neg h1, if_neg h2, List.sorted_cons]
          refine ⟨?_, ih h.2⟩
          intro b hb
          rcases mem_insertDedup.mp hb with hb | hb
          · omega
          · exact h.1 b hb

theorem sortDedup_sorted (l : List ℤ) : List.Sorted (· < ·) (sortDedup l) := by
  induction l with
  | nil => simp [sortDedup]
  | cons y t ih => exact sorted_insertDedup ih

theorem mem_sortDedup {x : ℤ} {l : List ℤ} : x ∈ sortDedup l ↔ x ∈ l := by
  induction l with
  | nil => simp [sortDedup]
  | cons y t ih =>
      show x ∈ insertDedup y (sortDedup t) ↔ _
      rw [mem_insertDedup, ih, List.mem_cons]

theorem sortDedup_nodup (l : List ℤ) : (sortDedup l).Nodup :=
  (sortDedup_sorted l).nodup

theorem sortDedup_sorted_le (l : List ℤ) :
    List.Sorted (· ≤ ·) (sortDedup l) :=
  (sortDedup_sorted l).le_of_lt

theorem toFinset_sortDedup (l : List ℤ) : (sortDedup l).toFinset = l.toFinset := by
  ext x
  simp [List.mem_toFinset, mem_sortDedup]

theorem sortDedup_eq_of_toFinset_eq {l l' : List ℤ}
    (h : l.toFinset = l'.toFinset) : sortDedup l = sortDedup l' := by
  refine List.eq_of_perm_of_sorted ?_ (sortDedup_sorted l) (sortDedup_sorted l')
  refine List.perm_of_nodup_nodup_toFinset_eq (sortDedup_nodup l) (sortDedup_nodup l') ?_
  rw [toFinset_sortDedup, toFinset_sortDedup, h]

theorem sortDedup_eq_nil {l : List ℤ} : sortDedup l = [] ↔ l = [] := by
  constructor
  · intro h
    cases l with
    | nil => rfl
    | cons y t =>
        exfalso
        have : y ∈ sortDedup (y :: t) := mem_sortDedup.mpr (List.mem_cons_self y t)
        rw [h] at this
        exact absurd this (List.not_mem_nil y)
  · intro h; subst h; rfl

theorem getD_strictMono {D : List ℤ} (hD : List.Sorted (· < ·) D)
    {i j : ℕ} (hij : i < j) (hj : j < D.length) : D.getD i 0 < D.getD j 0 := by
  have hi : i < D.length := lt_trans hij hj
  rw [List.getD_eq_getElem D 0 hi, List.getD_eq_getElem D 0 hj]
  have := @List.Sorted.rel_get_of_lt ℤ (· < ·) D hD ⟨i, hi⟩ ⟨j, hj⟩ hij
  simpa [List.get_eq_getElem] using this

theorem getD_mono {D : List ℤ} (hD : List.Sorted (· < ·) D)
    {i j : ℕ} (hij : i ≤ j) (hj : j < D.length) : D.getD i 0 ≤ D.getD j 0 := by
  rcases lt_or_eq_of_le hij with h | h
  · exact le_of_lt (getD_strictMono hD h hj)
  · rw [h]

theorem getD_le_getD_iff {D : List ℤ} (hD : List.Sorted (· < ·) D)
    {i j : ℕ} (hi : i < D.length) (hj : j < D.length) :
    D.getD i 0 ≤ D.getD j 0 ↔ i ≤ j := by
  constructor
  · intro h
    by_contra hc
    push_neg at hc
    have := getD_strictMono hD hc hi
    omega
  · intro h; exact getD_mono hD h hj

theorem advJ_isStop {D : List ℤ} {di : ℤ} (fuel : ℕ) :
    ∀ j, (∀ k, k < j → D.getD k 0 - di ≤ 364) → j ≤ D.length →
      D.length - j ≤ fuel → IsStop D di (advJ D di fuel j) := by
  induction fuel with
  | zero =>
      intro j h1 h2 h3
      have hj : j = D.length := by omega
      exact ⟨by rw [advJ]; omega, fun k hk => h1 k hk, by rw [advJ]; omega⟩
  | succ fuel ih =>
      intro j h1 h2 h3
      by_cases hc : j < D.length ∧ D.getD j 0 - di ≤ 364
      · rw [advJ, if_pos hc]
        refine ih (j + 1) ?_ (by omega) (by omega)
        intro k hk
        rcases Nat.lt_succ_iff_lt_or_eq.mp hk with h | h
        · exact h1 k h
        · subst h; exact hc.2
      · rw [advJ, if_neg hc]
        refine ⟨h2, h1, ?_⟩
        intro hlt
        push_neg at hc
        exact hc hlt

theorem isStop_unique {D : List ℤ} {di : ℤ} {a b : ℕ}
    (ha : IsStop D di a) (hb : IsStop D di b) : a = b := by
  by_contra hne
  rcases Nat.lt_or_ge a b with h | h
  · have hlt : a < D.length := lt_of_lt_of_le h hb.1
    have h364 := ha.2.2 hlt
    have hle := hb.2.1 a h
    omega
  · have h : b < a := by omega
    have hlt : b < D.length := lt_of_lt_of_le h ha.1
    have h364 := hb.2.2 hlt
    have hle := ha.2.1 b h
    omega

theorem stopFrom_isStop (D : List ℤ) (di : ℤ) : IsStop D di (stopFrom D di) :=
  advJ_isStop D.length 0 (fun k hk => absurd hk (Nat.not_lt_zero k))
    (Nat.zero_le _) (le_refl _)

theorem stopIdx_isStop (D : List ℤ) (i : ℕ) : IsStop D (D.getD i 0) (stopIdx D i) :=
  stopFrom_isStop D (D.getD i 0)

theorem stopIdx_le (D : List ℤ) (i : ℕ) : stopIdx D i ≤ D.length :=
  (stopIdx_isStop D i).1

theorem lt_stopIdx_self {D : List ℤ} (hD : List.Sorted (· < ·) D)
    {i : ℕ} (hi : i < D.length) : i < stopIdx D i := by
  by_contra hc
  push_neg at hc
  have hlt : stopIdx D i < D.length := lt_of_le_of_lt hc hi
  have h364 := (stopIdx_isStop D i).2.2 hlt
  have hmono := getD_mono hD hc hi
  omega

theorem stopIdx_mono {D : List ℤ} (hD : List.Sorted (· < ·) D)
    {i j : ℕ} (hij : i ≤ j) (hj : j < D.length) : stopIdx D i ≤ stopIdx D j := by
  by_contra hc
  push_neg at hc
  have hlt : stopIdx D j < D.length := lt_of_lt_of_le hc (stopIdx_le D i)
  have h364 := (stopIdx_isStop D j).2.2 hlt
  have hle := (stopIdx_isStop D i).2.1 (stopIdx D j) hc
  have hmono := getD_mono hD hij hj
  omega

theorem lt_stopIdx_iff {D : List ℤ} (hD : List.Sorted (· < ·) D)
    {i k : ℕ} (hi : i < D.length) (hk : k < D.length) :
    D.getD k 0 - D.getD i 0 ≤ 364 ↔ k < stopIdx D i := by
  constructor
  · intro h
    by_contra hc
    push_neg at hc
    have hlt : stopIdx D i < D.length := lt_of_le_of_lt hc hk
    have h364 := (stopIdx_isStop D i).2.2 hlt
    have hmono := getD_mono hD hc hk
    omega
  · intro h
    exact (stopIdx_isStop D i).2.1 k h

theorem tpInv_init (D : List ℤ) : TPInv D 0 (0, 0, 0, 0) := by
  refine ⟨Nat.zero_le _, ?_, ?_, ?_⟩
  · intro k hk; omega
  · simp
  · intro h; omega

theorem tpStep_inv {D : List ℤ} (hD : List.Sorted (· < ·) D)
    {i : ℕ} (hi : i < D.length) {st : ℕ × ℕ × ℕ × ℕ}
    (h : TPInv D i st) : TPInv D (i + 1) (tpStep D st i) := by
  obtain ⟨hjle, hpre, hsup, hargmax⟩ := h
  have hstop : advJ D (D.getD i 0) (D.length - st.1) st.1 = stopIdx D i :=
    isStop_unique
      (advJ_isStop (D.length - st.1) st.1 (fun k hk => hpre k hk hi) hjle (le_refl _))
      (stopIdx_isStop D i)
  have hstople := stopIdx_le D i
  have hstopgt := lt_stopIdx_self hD hi
  have hnew2 : ∀ k, k < stopIdx D i → i + 1 < D.length →
      D.getD k 0 - D.getD (i + 1) 0 ≤ 364 := by
    intro k hk hi1
    have h1 := (stopIdx_isStop D i).2.1 k hk
    have h2 := getD_mono hD (by omega : i ≤ i + 1) hi1
    omega
  have hsup1 : (Finset.range (i + 1)).sup (fun q => stopIdx D q - q) =
      max (stopIdx D i - i) ((Finset.range i).sup (fun q => stopIdx D q - q)) := by
    rw [Finset.range_succ, Finset.sup_insert, sup_eq_max]
  rw [tpStep]
  simp only [hstop]
  by_cases hgt : stopIdx D i - i > st.2.1
  · rw [if_pos hgt]
    refine ⟨hstople, hnew2, ?_, ?_⟩
    · rw [hsup1, ← hsup]
      exact (max_eq_left (le_of_lt hgt)).symm
    · intro _
      exact ⟨Nat.lt_succ_self i, rfl, rfl⟩
  · rw [if_neg hgt]
    refine ⟨hstople, hnew2, ?_, ?_⟩
    · rw [hsup1, ← hsup]
      push_neg at hgt
      exact (max_eq_right hgt).symm
    · intro _
      rcases Nat.eq_zero_or_pos i with h0 | h0
      · exfalso
        subst h0
        simp at hsup
        omega
      · obtain ⟨hmi, hmax, hmj⟩ := hargmax h0
        exact ⟨Nat.lt_succ_of_lt hmi, hmax, hmj⟩

theorem tpFold {D : List ℤ} (hD : List.Sorted (· < ·) D) :
    ∀ (k i : ℕ) (st : ℕ × ℕ × ℕ × ℕ), TPInv D i st → i + k ≤ D.length →
      TPInv D (i + k) (List.foldl (tpStep D) st (List.range' i k)) := by
  intro k
  induction k with
  | zero =>
      intro i st h _
      simpa using h
  | succ k ih =>
      intro i st h hik
      have hi : i < D.length := by omega
      rw [List.range'_succ, List.foldl_cons]
      have heq : i + (k + 1) = (i + 1) + k := by omega
      rw [heq]
      exact ih (i + 1) (tpStep D st i) (tpStep_inv hD hi h) (by omega)

theorem tpRun_inv {D : List ℤ} (hD : List.Sorted (· < ·) D) :
    TPInv D D.length (tpRun D) := by
  have h := tpFold hD D.length 0 (0, 0, 0, 0) (tpInv_init D) (by omega)
  rw [tpRun, List.range_eq_range']
  simpa using h

theorem refMax_eq_sup {D : List ℤ} (hD : List.Sorted (· < ·) D) :
    refMax D = (Finset.range D.length).sup (fun q => stopIdx D q - q) := by
  apply le_antisymm
  · apply Finset.sup_le
    intro p hp
    rw [Finset.mem_product, Finset.mem_range, Finset.mem_range] at hp
    by_cases hc : p.1 ≤ p.2 ∧ D.getD p.2 0 - D.getD p.1 0 ≤ 364
    · rw [if_pos hc]
      have hlt : p.2 < stopIdx D p.1 :=
        (lt_stopIdx_iff hD hp.1 hp.2).mp hc.2
      calc p.2 - p.1 + 1 ≤ stopIdx D p.1 - p.1 := by omega
        _ ≤ _ := Finset.le_sup (f := fun q => stopIdx D q - q)
          (Finset.mem_range.mpr hp.1)
    · rw [if_neg hc]
      exact Nat.zero_le _
  · apply Finset.sup_le
    intro q hq
    rw [Finset.mem_range] at hq
    have hgt := lt_stopIdx_self hD hq
    have hle := stopIdx_le D q
    have hmem : (q, stopIdx D q - 1) ∈
        (Finset.range D.length) ×ˢ (Finset.range D.length) := by
      rw [Finset.mem_product, Finset.mem_range, Finset.mem_range]
      exact ⟨hq, by omega⟩
    have hcond1 : q ≤ stopIdx D q - 1 := by omega
    have hcond2 : D.getD (stopIdx D q - 1) 0 - D.getD q 0 ≤ 364 :=
      (stopIdx_isStop D q).2.1 (stopIdx D q - 1) (by omega)
    have hval := Finset.le_sup
      (f := fun p : ℕ × ℕ =>
        if p.1 ≤ p.2 ∧ D.getD p.2 0 - D.getD p.1 0 ≤ 364 then p.2 - p.1 + 1 else 0)
      hmem
    simp only [hcond1, hcond2, and_self, if_true, true_and] at hval
    calc stopIdx D q - q = (stopIdx D q - 1) - q + 1 := by omega
      _ ≤ _ := hval

theorem getD_mem {D : List ℤ} {k : ℕ} (hk : k < D.length) : D.getD k 0 ∈ D := by
  rw [List.getD_eq_getElem D 0 hk]
  exact List.getElem_mem hk

theorem mem_validIntervals {r : ℤ × ℤ} {rs : List (ℤ × ℤ)} :
    r ∈ validIntervals rs ↔ r ∈ rs ∧ ¬r.2 < r.1 := by
  rw [validIntervals, List.mem_filter]
  simp

theorem mem_allDaysList {x : ℤ} {rs : List (ℤ × ℤ)} :
    x ∈ allDaysList rs ↔ ∃ r ∈ validIntervals rs, r.1 ≤ x ∧ x ≤ r.2 := by
  rw [allDaysList, List.mem_flatMap]
  constructor
  · rintro ⟨⟨s, e⟩, hr, hmem⟩
    rw [List.mem_map] at hmem
    obtain ⟨d, hd, hx⟩ := hmem
    rw [List.mem_range] at hd
    have hvalid : ¬(s, e).2 < (s, e).1 := (mem_validIntervals.mp hr).2
    simp only at hvalid hx
    refine ⟨(s, e), hr, ?_, ?_⟩
    · show s ≤ x
      omega
    · show x ≤ e
      omega
  · rintro ⟨⟨s, e⟩, hr, h1, h2⟩
    refine ⟨(s, e), hr, ?_⟩
    rw [List.mem_map]
    simp only at h1 h2
    refine ⟨(x - s).toNat, ?_, ?_⟩
    · rw [List.mem_range]
      omega
    · show s + ((x - s).toNat : ℤ) = x
      omega

theorem mem_coveredDays {x : ℤ} {rs : List (ℤ × ℤ)} :
    x ∈ coveredDays rs ↔ ∃ r ∈ validIntervals rs, r.1 ≤ x ∧ x ≤ r.2 := by
  rw [coveredDays, List.mem_toFinset, mem_allDaysList]

theorem allDays_toFinset (rs : List (ℤ × ℤ)) :
    (allDays rs).toFinset = coveredDays rs :=
  toFinset_sortDedup (allDaysList rs)

theorem allDays_sorted (rs : List (ℤ × ℤ)) :
    List.Sorted (· < ·) (allDays rs) :=
  sortDedup_sorted (allDaysList rs)

theorem allDaysList_of_validIntervals_nil {rs : List (ℤ × ℤ)}
    (h : validIntervals rs = []) : allDaysList rs = [] := by
  rw [allDaysList, h]
  rfl

theorem refMax_nil : refMax ([] : List ℤ) = 0 := by
  simp [refMax]

theorem maxDays365_eq_refMax (rs : List (ℤ × ℤ)) :
    maxDays365 rs = refMax (allDays rs) := by
  rw [maxDays365, rollingMax]
  by_cases h1 : validIntervals rs = []
  · rw [if_pos h1]
    have h2 : allDaysList rs = [] := allDaysList_of_validIntervals_nil h1
    have h3 : allDays rs = [] := by rw [allDays, h2]; rfl
    rw [h3, refMax_nil]
  · rw [if_neg h1]
    by_cases h2 : allDays rs = []
    · simp only [h2, if_pos]
      rw [refMax_nil]
    · simp only [if_neg h2]
      have hD := allDays_sorted rs
      rw [refMax_eq_sup hD]
      exact (tpRun_inv hD).2.2.1

theorem filter_card_eq {D : List ℤ} (hD : List.Sorted (· < ·) D)
    (p : ℤ → Prop) [DecidablePred p] :
    (D.toFinset.filter p).card =
      ((Finset.range D.length).filter (fun k => p (D.getD k 0))).card := by
  have himg : D.toFinset.filter p =
      ((Finset.range D.length).filter (fun k => p (D.getD k 0))).image
        (fun k => D.getD k 0) := by
    ext x
    simp only [Finset.mem_filter, List.mem_toFinset, Finset.mem_image,
      Finset.mem_range]
    constructor
    · rintro ⟨hx, hpx⟩
      obtain ⟨t, ht⟩ := List.mem_iff_get.mp hx
      refine ⟨t.1, ⟨t.2, ?_⟩, ?_⟩
      · rw [List.getD_eq_getElem D 0 t.2, ← List.get_eq_getElem, ht]
        exact hpx
      · rw [List.getD_eq_getElem D 0 t.2, ← List.get_eq_getElem, ht]
    · rintro ⟨k, ⟨hk, hpk⟩, hx⟩
      subst hx
      exact ⟨getD_mem hk, hpk⟩
  rw [himg]
  apply Finset.card_image_of_injOn
  intro a ha b hb hab
  simp only [Finset.coe_filter, Set.mem_setOf_eq, Finset.mem_range] at ha hb
  by_contra hne
  rcases Nat.lt_or_ge a b with h | h
  · exact absurd hab (ne_of_lt (getD_strictMono hD h hb.1))
  · have h : b < a := by omega
    exact absurd hab.symm (ne_of_lt (getD_strictMono hD h ha.1))

theorem card_between {D : List ℤ} (hD : List.Sorted (· < ·) D)
    {a b : ℕ} (hab : a ≤ b) (hb : b < D.length) :
    (D.toFinset.filter (fun d => D.getD a 0 ≤ d ∧ d ≤ D.getD b 0)).card =
      b - a + 1 := by
  rw [filter_card_eq hD]
  have ha : a < D.length := lt_of_le_of_lt hab hb
  have hset : (Finset.range D.length).filter
      (fun k => D.getD a 0 ≤ D.getD k 0 ∧ D.getD k 0 ≤ D.getD b 0) =
      Finset.Icc a b := by
    ext k
    simp only [Finset.mem_filter, Finset.mem_range, Finset.mem_Icc]
    constructor
    · rintro ⟨hk, h1, h2⟩
      exact ⟨(getD_le_getD_iff hD ha hk).mp h1, (getD_le_getD_iff hD hk hb).mp h2⟩
    · rintro ⟨h1, h2⟩
      have hk : k < D.length := lt_of_le_of_lt h2 hb
      exact ⟨hk, getD_mono hD h1 hk, getD_mono hD h2 hb⟩
  rw [hset, Nat.card_Icc]
  omega

theorem windowCount_getD {D : List ℤ} (hD : List.Sorted (· < ·) D)
    {i : ℕ} (hi : i < D.length) :
    windowCount D.toFinset (D.getD i 0) = stopIdx D i - i := by
  rw [windowCount, filter_card_eq hD]
  have hset : (Finset.range D.length).filter
      (fun k => D.getD i 0 ≤ D.getD k 0 ∧ D.getD k 0 ≤ D.getD i 0 + 364) =
      Finset.Ico i (stopIdx D i) := by
    ext k
    simp only [Finset.mem_filter, Finset.mem_range, Finset.mem_Ico]
    constructor
    · rintro ⟨hk, h1, h2⟩
      refine ⟨(getD_le_getD_iff hD hi hk).mp h1, ?_⟩
      exact (lt_stopIdx_iff hD hi hk).mp (by omega)
    · rintro ⟨h1, h2⟩
      have hk : k < D.length := lt_of_lt_of_le h2 (stopIdx_le D i)
      have h364 := (stopIdx_isStop D i).2.1 k h2
      exact ⟨hk, getD_mono hD h1 hk, by omega⟩
  rw [hset, Nat.card_Ico]

theorem refMax_eq_setMax {D : List ℤ} (hD : List.Sorted (· < ·) D) :
    refMax D = setMax D.toFinset := by
  rw [refMax_eq_sup hD, setMax]
  apply le_antisymm
  · apply Finset.sup_le
    intro q hq
    rw [Finset.mem_range] at hq
    rw [← windowCount_getD hD hq]
    exact Finset.le_sup (List.mem_toFinset.mpr (getD_mem hq))
  · apply Finset.sup_le
    intro a ha
    obtain ⟨t, ht⟩ := List.mem_iff_get.mp (List.mem_toFinset.mp ha)
    have hval : a = D.getD t.1 0 := by
      rw [List.getD_eq_getElem D 0 t.2, ← List.get_eq_getElem, ht]
    rw [hval, windowCount_getD hD t.2]
    exact Finset.le_sup (f := fun q => stopIdx D q - q) (Finset.mem_range.mpr t.2)

theorem setMax_mono {S T : Finset ℤ} (h : S ⊆ T) : setMax S ≤ setMax T := by
  apply Finset.sup_le
  intro a ha
  calc windowCount S a ≤ windowCount T a :=
        Finset.card_le_card (Finset.filter_subset_filter _ h)
    _ ≤ setMax T := Finset.le_sup (h ha)

theorem maxDays365_eq_setMax (rs : List (ℤ × ℤ)) :
    maxDays365 rs = setMax (coveredDays rs) := by
  rw [maxDays365_eq_refMax, refMax_eq_setMax (allDays_sorted rs), allDays_toFinset]

theorem processRange_invalid {Y : ℕ} {r : ℤ × ℤ} (h : r.2 < r.1) :
    processRange Y r = { validityError := true, stayLength := 0, daysInYear := 0 } := by
  rw [processRange, if_pos h]

theorem totalDays_nil (Y : ℕ) : totalDays Y [] = 0 := rfl

theorem totalDays_cons (Y : ℕ) (r : ℤ × ℤ) (t : List (ℤ × ℤ)) :
    totalDays Y (r :: t) = (processRange Y r).daysInYear + totalDays Y t := by
  rw [totalDays, List.map_cons, List.sum_cons]
  rfl

theorem processRange_valid {Y : ℕ} {r : ℤ × ℤ} (h : ¬r.2 < r.1) :
    processRange Y r = ⟨false, r.2 - r.1 + 1, annualContribution Y r⟩ := by
  rw [processRange, if_neg h, annualContribution]

theorem daysInYear_invalid {Y : ℕ} {r : ℤ × ℤ} (h : r.2 < r.1) :
    (processRange Y r).daysInYear = 0 := by
  rw [processRange_invalid h]

theorem daysInYear_valid {Y : ℕ} {r : ℤ × ℤ} (h : ¬r.2 < r.1) :
    (processRange Y r).daysInYear = annualContribution Y r := by
  rw [processRange_valid h]

theorem validIntervals_cons_invalid {r : ℤ × ℤ} {t : List (ℤ × ℤ)} (h : r.2 < r.1) :
    validIntervals (r :: t) = validIntervals t := by
  rw [validIntervals, validIntervals, List.filter_cons]
  simp [h]

theorem validIntervals_cons_valid {r : ℤ × ℤ} {t : List (ℤ × ℤ)} (h : ¬r.2 < r.1) :
    validIntervals (r :: t) = r :: validIntervals t := by
  rw [validIntervals, validIntervals, List.filter_cons]
  simp [h]

theorem totalDays_eq_validSum (Y : ℕ) (rs : List (ℤ × ℤ)) :
    totalDays Y rs = ((validIntervals rs).map (annualContribution Y)).sum := by
  induction rs with
  | nil => rfl
  | cons r t ih =>
      by_cases h : r.2 < r.1
      · rw [totalDays_cons, daysInYear_invalid h, validIntervals_cons_invalid h,
          zero_add, ih]
      · rw [totalDays_cons, daysInYear_valid h, validIntervals_cons_valid h,
          List.map_cons, List.sum_cons, ih]

theorem longStep_acc_mono {a b : ℤ} (h : a ≤ b) (r : ℤ × ℤ) :
    longStep a r ≤ longStep b r := by
  by_cases hr : r.2 < r.1
  · simpa [longStep, hr] using h
  · simp only [longStep, if_neg hr]
    exact max_le_max h (le_refl _)

theorem foldl_longStep_acc_mono {a b : ℤ} (h : a ≤ b) (l : List (ℤ × ℤ)) :
    l.foldl longStep a ≤ l.foldl longStep b := by
  induction l generalizing a b with
  | nil => exact h
  | cons r t ih => exact ih (longStep_acc_mono h r)

theorem foldl_longStep_skip_invalid {l : List (ℤ × ℤ)}
    (h : ∀ r ∈ l, r.2 < r.1) (a : ℤ) : l.foldl longStep a = a := by
  induction l generalizing a with
  | nil => rfl
  | cons r t ih =>
      rw [List.foldl_cons, longStep, if_pos (h r (List.mem_cons_self r t))]
      exact ih (fun q hq => h q (List.mem_cons_of_mem r hq)) a

theorem rollingMax_congr {rs rt : List (ℤ × ℤ)}
    (h : validIntervals rs = validIntervals rt) : rollingMax rs = rollingMax rt := by
  rw [rollingMax, rollingMax, allDays, allDays, allDaysList, allDaysList, h]

theorem rollingMax_eq_of {rs rt : List (ℤ × ℤ)}
    (h1 : validIntervals rs = [] ↔ validIntervals rt = [])
    (h2 : allDays rs = allDays rt) : rollingMax rs = rollingMax rt := by
  rw [rollingMax, rollingMax]
  by_cases hn : validIntervals rs = []
  · rw [if_pos hn, if_pos (h1.mp hn)]
  · rw [if_neg hn, if_neg (fun hc => hn (h1.mpr hc)), h2]

theorem map_eraseIdx {β : Type} (f : (ℤ × ℤ) → β) :
    ∀ (l : List (ℤ × ℤ)) (i : ℕ), (l.eraseIdx i).map f = (l.map f).eraseIdx i := by
  intro l
  induction l with
  | nil => intro i; cases i <;> rfl
  | cons r t ih =>
      intro i
      cases i with
      | zero => rfl
      | succ i =>
          rw [List.eraseIdx_cons_succ, List.map_cons, List.map_cons,
            List.eraseIdx_cons_succ, ih]

theorem validIntervals_eraseIdx :
    ∀ (rs : List (ℤ × ℤ)) (i : ℕ), i < rs.length →
      (rs.getD i (0, 0)).2 < (rs.getD i (0, 0)).1 →
      validIntervals (rs.eraseIdx i) = validIntervals rs := by
  intro rs
  induction rs with
  | nil => intro i hi; simp at hi
  | cons r t ih =>
      intro i hi hinv
      cases i with
      | zero =>
          rw [List.getD_cons_zero] at hinv
          rw [List.eraseIdx_cons_zero, validIntervals_cons_invalid hinv]
      | succ i =>
          rw [List.getD_cons_succ] at hinv
          have hi : i < t.length := by
            rw [List.length_cons] at hi; omega
          rw [List.eraseIdx_cons_succ]
          by_cases h : r.2 < r.1
          · rw [validIntervals_cons_invalid h, validIntervals_cons_invalid h,
              ih i hi hinv]
          · rw [validIntervals_cons_valid h, validIntervals_cons_valid h,
              ih i hi hinv]

theorem totalDays_eraseIdx :
    ∀ (Y : ℕ) (rs : List (ℤ × ℤ)) (i : ℕ), i < rs.length →
      (rs.getD i (0, 0)).2 < (rs.getD i (0, 0)).1 →
      totalDays Y (rs.eraseIdx i) = totalDays Y rs := by
  intro Y rs
  induction rs with
  | nil => intro i hi; simp at hi
  | cons r t ih =>
      intro i hi hinv
      cases i with
      | zero =>
          rw [List.getD_cons_zero] at hinv
          rw [List.eraseIdx_cons_zero, totalDays_cons, daysInYear_invalid hinv,
            zero_add]
      | succ i =>
          rw [List.getD_cons_succ] at hinv
          have hi : i < t.length := by
            rw [List.length_cons] at hi; omega
          rw [List.eraseIdx_cons_succ, totalDays_cons, totalDays_cons,
            ih i hi hinv]

theorem foldl_longStep_eraseIdx :
    ∀ (rs : List (ℤ × ℤ)) (i : ℕ) (acc : ℤ), i < rs.length →
      (rs.getD i (0, 0)).2 < (rs.getD i (0, 0)).1 →
      (rs.eraseIdx i).foldl longStep acc = rs.foldl longStep acc := by
  intro rs
  induction rs with
  | nil => intro i acc hi; simp at hi
  | cons r t ih =>
      intro i acc hi hinv
      cases i with
      | zero =>
          rw [List.getD_cons_zero] at hinv
          rw [List.eraseIdx_cons_zero, List.foldl_cons, longStep, if_pos hinv]
      | succ i =>
          rw [List.getD_cons_succ] at hinv
          have hi : i < t.length := by
            rw [List.length_cons] at hi; omega
          rw [List.eraseIdx_cons_succ, List.foldl_cons, List.foldl_cons,
            ih i (longStep acc r) hi hinv]

theorem mem_set_of_mem {α : Type} (d : α) :
    ∀ (l : List α) (i : ℕ) (v a : α), a ∈ l → a ∈ l.set i v ∨ a = l.getD i d := by
  intro l
  induction l with
  | nil => intro i v a h; cases h
  | cons r t ih =>
      intro i v a h
      cases i with
      | zero =>
          rcases List.mem_cons.mp h with h | h
          · right; rw [List.getD_cons_zero, h]
          · left
            rw [List.set_cons_zero]
            exact List.mem_cons_of_mem v h
      | succ i =>
          rcases List.mem_cons.mp h with h | h
          · left
            rw [List.set_cons_succ, h]
            exact List.mem_cons_self r (t.set i v)
          · rw [List.set_cons_succ, List.getD_cons_succ]
            rcases ih i v a h with h2 | h2
            · exact Or.inl (List.mem_cons_of_mem r h2)
            · exact Or.inr h2

theorem set_mem_self {α : Type} (l : List α) (i : ℕ) (v : α) (h : i < l.length) :
    v ∈ l.set i v := by
  have hlen : i < (l.set i v).length := by rw [List.length_set]; exact h
  have hv := List.getElem_set_self (l := l) (i := i) (a := v) hlen
  have hm := List.getElem_mem hlen
  rwa [hv] at hm

theorem validIntervals_nil_forall {rs : List (ℤ × ℤ)}
    (h : validIntervals rs = []) : ∀ r ∈ rs, r.2 < r.1 := by
  intro r hr
  have := List.filter_eq_nil_iff.mp h r hr
  simpa using this

theorem rollingMax_of_memEquiv {rs rt : List (ℤ × ℤ)}
    (h : ∀ q, q ∈ validIntervals rs ↔ q ∈ validIntervals rt) :
    rollingMax rs = rollingMax rt := by
  apply rollingMax_eq_of
  · rw [List.eq_nil_iff_forall_not_mem, List.eq_nil_iff_forall_not_mem]
    constructor
    · intro hn q hq; exact hn q ((h q).mpr hq)
    · intro hn q hq; exact hn q ((h q).mp hq)
  · apply sortDedup_eq_of_toFinset_eq
    ext x
    rw [List.mem_toFinset, List.mem_toFinset, mem_allDaysList, mem_allDaysList]
    constructor
    · rintro ⟨r, hr, hb⟩; exact ⟨r, (h r).mp hr, hb⟩
    · rintro ⟨r, hr, hb⟩; exact ⟨r, (h r).mpr hr, hb⟩

theorem longStep_rightComm : RightCommutative longStep := by
  refine ⟨fun b x y => ?_⟩
  by_cases hx : x.2 < x.1 <;> by_cases hy : y.2 < y.1 <;>
    simp [longStep, hx, hy, sup_right_comm]

theorem annualContribution_mono_end (Y : ℕ) (s e : ℤ) (h : s ≤ e) :
    annualContribution Y (s, e) ≤ annualContribution Y (s, e + 1) := by
  rw [annualContribution, annualContribution]
  have hmin : min (s, e).2 (yearEnd Y) ≤ min (s, e + 1).2 (yearEnd Y) :=
    min_le_min (by show e ≤ e + 1; omega) (le_refl _)
  by_cases h2 : max (s, e + 1).1 (yearStart Y) > min (s, e + 1).2 (yearEnd Y)
  · rw [if_pos h2, if_pos (by omega)]
  · rw [if_neg h2]
    by_cases h1 : max (s, e).1 (yearStart Y) > min (s, e).2 (yearEnd Y)
    · rw [if_pos h1]
      omega
    · rw [if_neg h1]
      omega

theorem longStep_mono_end (acc s e : ℤ) (h : s ≤ e) :
    longStep acc (s, e) ≤ longStep acc (s, e + 1) := by
  rw [longStep, longStep]
  rw [if_neg (by show ¬e < s; omega), if_neg (by show ¬e + 1 < s; omega)]
  exact max_le_max (le_refl _) (by show e - s + 1 ≤ e + 1 - s + 1; omega)

theorem totalDays_set_mono (Y : ℕ) :
    ∀ (rs : List (ℤ × ℤ)) (i : ℕ) (s e : ℤ), i < rs.length →
      rs.getD i (0, 0) = (s, e) → s ≤ e →
      totalDays Y rs ≤ totalDays Y (rs.set i (s, e + 1)) := by
  intro rs
  induction rs with
  | nil => intro i s e hi; simp at hi
  | cons r t ih =>
      intro i s e hi hr hse
      cases i with
      | zero =>
          rw [List.getD_cons_zero] at hr
          subst hr
          rw [List.set_cons_zero, totalDays_cons, totalDays_cons]
          have hd : (processRange Y (s, e)).daysInYear ≤
              (processRange Y (s, e + 1)).daysInYear := by
            rw [daysInYear_valid (by simp; omega), daysInYear_valid (by simp; omega)]
            exact annualContribution_mono_end Y s e hse
          omega
      | succ i =>
          rw [List.getD_cons_succ] at hr
          have hi : i < t.length := by rw [List.length_cons] at hi; omega
          rw [List.set_cons_succ, totalDays_cons, totalDays_cons]
          have := ih i s e hi hr hse
          omega

theorem foldl_longStep_set_mono :
    ∀ (rs : List (ℤ × ℤ)) (i : ℕ) (s e : ℤ) (acc : ℤ), i < rs.length →
      rs.getD i (0, 0) = (s, e) → s ≤ e →
      rs.foldl longStep acc ≤ (rs.set i (s, e + 1)).foldl longStep acc := by
  intro rs
  induction rs with
  | nil => intro i s e acc hi; simp at hi
  | cons r t ih =>
      intro i s e acc hi hr hse
      cases i with
      | zero =>
          rw [List.getD_cons_zero] at hr
          subst hr
          rw [List.set_cons_zero, List.foldl_cons, List.foldl_cons]
          exact foldl_longStep_acc_mono (longStep_mono_end acc s e hse) t
      | succ i =>
          rw [List.getD_cons_succ] at hr
          have hi : i < t.length := by rw [List.length_cons] at hi; omega
          rw [List.set_cons_succ, List.foldl_cons, List.foldl_cons]
          exact ih i s e (longStep acc r) hi hr hse

theorem coveredDays_subset_set {rs : List (ℤ × ℤ)} {i : ℕ} {s e : ℤ}
    (hi : i < rs.length) (hr : rs.getD i (0, 0) = (s, e)) :
    coveredDays rs ⊆ coveredDays (rs.set i (s, e + 1)) := by
  intro x hx
  rw [mem_coveredDays] at hx ⊢
  obtain ⟨r, hrv, hx1, hx2⟩ := hx
  have hrmem := (mem_validIntervals.mp hrv).1
  have hrvalid := (mem_validIntervals.mp hrv).2
  rcases mem_set_of_mem (0, 0) rs i (s, e + 1) r hrmem with h | h
  · exact ⟨r, mem_validIntervals.mpr ⟨h, hrvalid⟩, hx1, hx2⟩
  · rw [hr] at h
    subst h
    simp only at hx1 hx2 hrvalid
    refine ⟨(s, e + 1),
      mem_validIntervals.mpr ⟨set_mem_self rs i (s, e + 1) hi, by simp; omega⟩,
      by simp; omega, by simp; omega⟩

/-- C1: for every input range list, the reported rolling-window maximum
equals the reference definition: with D the strictly sorted,
deduplicated sequence of the days covered by at least one valid
interval, max_days_365 is the maximum of j - i + 1 over all pairs
0 <= i <= j < n with D[j] - D[i] <= 364, which the two-pointer scan
computes exactly. -/
theorem C1_rolling_window_equals_reference (rs : List (ℤ × ℤ)) :
    List.Sorted (· < ·) (allDays rs) ∧
    (∀ x : ℤ, x ∈ allDays rs ↔ ∃ r ∈ validIntervals rs, r.1 ≤ x ∧ x ≤ r.2) ∧
    maxDays365 rs = refMax (allDays rs) :=
  ⟨allDays_sorted rs,
   fun x => by rw [allDays, mem_sortDedup, mem_allDaysList],
   maxDays365_eq_refMax rs⟩

/-- C2: a valid interval's annual contribution is computed by clamping
to [Jan 1 Y, Dec 31 Y] with inclusive counting (0 when the clamp is
empty), total_days is the sum of the per-interval contributions, and the
range 2024-12-20 to 2025-01-10 yields 12 days in 2024, 10 days in 2025,
and stay length 22. -/
theorem C2_annual_intersection (Y : ℕ) (rs : List (ℤ × ℤ)) (s e : ℤ)
    (h : s ≤ e) :
    (processRange Y (s, e)).daysInYear = annualContribution Y (s, e) ∧
    totalDays Y rs = ((validIntervals rs).map (annualContribution Y)).sum ∧
    (processRange 2024 (toOrdinal 2024 12 20, toOrdinal 2025 1 10)).daysInYear = 12 ∧
    (processRange 2025 (toOrdinal 2024 12 20, toOrdinal 2025 1 10)).daysInYear = 10 ∧
    (processRange 2024 (toOrdinal 2024 12 20, toOrdinal 2025 1 10)).stayLength = 22 :=
  ⟨daysInYear_valid (not_lt.mpr (by simpa using h)), totalDays_eq_validSum Y rs,
   by decide, by decide, by decide⟩

theorem C2_witness :
    (0 : ℤ) ≤ (1 : ℤ) ∧
    ((processRange 2024 ((0 : ℤ), (1 : ℤ))).daysInYear = annualContribution 2024 (0, 1) ∧
     totalDays 2024 [] = ((validIntervals []).map (annualContribution 2024)).sum ∧
     (processRange 2024 (toOrdinal 2024 12 20, toOrdinal 2025 1 10)).daysInYear = 12 ∧
     (processRange 2025 (toOrdinal 2024 12 20, toOrdinal 2025 1 10)).daysInYear = 10 ∧
     (processRange 2024 (toOrdinal 2024 12 20, toOrdinal 2025 1 10)).stayLength = 22) :=
  ⟨by decide, C2_annual_intersection 2024 [] 0 1 (by decide)⟩

/-- C3: a range with end < start is reported with the error flag, stay
length 0 and annual days 0, and removing it from the input changes no
aggregate and no per-range result of the other ranges. -/
theorem C3_invalid_range_isolated (Y : ℕ) (rs : List (ℤ × ℤ)) (i : ℕ)
    (hi : i < rs.length)
    (hinv : (rs.getD i (0, 0)).2 < (rs.getD i (0, 0)).1) :
    processRange Y (rs.getD i (0, 0)) = ⟨true, 0, 0⟩ ∧
    validIntervals (rs.eraseIdx i) = validIntervals rs ∧
    totalDays Y (rs.eraseIdx i) = totalDays Y rs ∧
    longestSingleStay (rs.eraseIdx i) = longestSingleStay rs ∧
    rollingMax (rs.eraseIdx i) = rollingMax rs ∧
    (rs.eraseIdx i).map (processRange Y) = (rs.map (processRange Y)).eraseIdx i :=
  ⟨processRange_invalid hinv,
   validIntervals_eraseIdx rs i hi hinv,
   totalDays_eraseIdx Y rs i hi hinv,
   foldl_longStep_eraseIdx rs i 0 hi hinv,
   rollingMax_congr (validIntervals_eraseIdx rs i hi hinv),
   map_eraseIdx (processRange Y) rs i⟩

theorem C3_witness :
    1 < ([((0 : ℤ), (2 : ℤ)), (5, 3)] : List (ℤ × ℤ)).length ∧
    (([((0 : ℤ), (2 : ℤ)), (5, 3)].getD 1 (0, 0)).2 <
      ([((0 : ℤ), (2 : ℤ)), (5, 3)].getD 1 (0, 0)).1) ∧
    (processRange 2024 ([((0 : ℤ), (2 : ℤ)), (5, 3)].getD 1 (0, 0)) = ⟨true, 0, 0⟩ ∧
     validIntervals ([((0 : ℤ), (2 : ℤ)), (5, 3)].eraseIdx 1) =
       validIntervals [((0 : ℤ), (2 : ℤ)), (5, 3)] ∧
     totalDays 2024 ([((0 : ℤ), (2 : ℤ)), (5, 3)].eraseIdx 1) =
       totalDays 2024 [((0 : ℤ), (2 : ℤ)), (5, 3)] ∧
     longestSingleStay ([((0 : ℤ), (2 : ℤ)), (5, 3)].eraseIdx 1) =
       longestSingleStay [((0 : ℤ), (2 : ℤ)), (5, 3)] ∧
     rollingMax ([((0 : ℤ), (2 : ℤ)), (5, 3)].eraseIdx 1) =
       rollingMax [((0 : ℤ), (2 : ℤ)), (5, 3)] ∧
     ([((0 : ℤ), (2 : ℤ)), (5, 3)].eraseIdx 1).map (processRange 2024) =
       ([((0 : ℤ), (2 : ℤ)), (5, 3)].map (processRange 2024)).eraseIdx 1) :=
  ⟨by decide, by decide,
   C3_invalid_range_isolated 2024 [((0 : ℤ), (2 : ℤ)), (5, 3)] 1 (by decide) (by decide)⟩

/-- C4: a valid interval's stay length is (end - start) + 1, counted
inclusively; in particular a one-day range has stay length 1, not 0. -/
theorem C4_inclusive_counting (Y : ℕ) (s e : ℤ) (h : s ≤ e) :
    (processRange Y (s, e)).stayLength = e - s + 1 ∧
    (processRange Y (s, e)).validityError = false ∧
    (s = e → (processRange Y (s, e)).stayLength = 1) := by
  have hv : ¬(s, e).2 < (s, e).1 := not_lt.mpr (by simpa using h)
  rw [processRange_valid hv]
  refine ⟨rfl, rfl, ?_⟩
  intro he
  show e - s + 1 = 1
  omega

theorem C4_witness :
    (7 : ℤ) ≤ (7 : ℤ) ∧
    ((processRange 2024 ((7 : ℤ), (7 : ℤ))).stayLength = 7 - 7 + 1 ∧
     (processRange 2024 ((7 : ℤ), (7 : ℤ))).validityError = false ∧
     ((7 : ℤ) = (7 : ℤ) → (processRange 2024 ((7 : ℤ), (7 : ℤ))).stayLength = 1)) :=
  ⟨by decide, C4_inclusive_counting 2024 7 7 (by decide)⟩

/-- C5: when no valid interval exists (for instance when every supplied
range has end < start), all aggregates are the defined zero results and
no window bounds are reported. -/
theorem C5_empty_valid_set (Y : ℕ) (rs : List (ℤ × ℤ))
    (h : validIntervals rs = []) :
    totalDays Y rs = 0 ∧ longestSingleStay rs = 0 ∧
    rollingMax rs = (0, none, none) := by
  refine ⟨?_, ?_, ?_⟩
  · rw [totalDays_eq_validSum, h]
    rfl
  · rw [longestSingleStay]
    exact foldl_longStep_skip_invalid (validIntervals_nil_forall h) 0
  · rw [rollingMax, if_pos h]

theorem C5_witness :
    validIntervals [((5 : ℤ), (3 : ℤ))] = [] ∧
    (totalDays 2024 [((5 : ℤ), (3 : ℤ))] = 0 ∧
     longestSingleStay [((5 : ℤ), (3 : ℤ))] = 0 ∧
     rollingMax [((5 : ℤ), (3 : ℤ))] = (0, none, none)) :=
  ⟨by decide, C5_empty_valid_set 2024 [((5 : ℤ), (3 : ℤ))] (by decide)⟩

/-- C6: permuting the input range list changes none of total_days,
longest_single_stay, and the full rolling-window result including its
window bounds. -/
theorem C6_order_invariance (Y : ℕ) (rs rt : List (ℤ × ℤ)) (h : rs.Perm rt) :
    totalDays Y rs = totalDays Y rt ∧
    longestSingleStay rs = longestSingleStay rt ∧
    rollingMax rs = rollingMax rt := by
  refine ⟨?_, ?_, ?_⟩
  · rw [totalDays, totalDays]
    exact List.Perm.sum_eq (h.map _)
  · rw [longestSingleStay, longestSingleStay]
    exact @List.Perm.foldl_eq _ _ longStep _ _ longStep_rightComm h 0
  · exact rollingMax_of_memEquiv (fun q => (h.filter _).mem_iff)

theorem C6_witness :
    ([((0 : ℤ), (1 : ℤ)), (5, 3)] : List (ℤ × ℤ)).Perm [(5, 3), (0, 1)] ∧
    (totalDays 2024 [((0 : ℤ), (1 : ℤ)), (5, 3)] = totalDays 2024 [(5, 3), (0, 1)] ∧
     longestSingleStay [((0 : ℤ), (1 : ℤ)), (5, 3)] = longestSingleStay [(5, 3), (0, 1)] ∧
     rollingMax [((0 : ℤ), (1 : ℤ)), (5, 3)] = rollingMax [(5, 3), (0, 1)]) :=
  ⟨by decide, C6_order_invariance 2024 _ _ (by decide)⟩

/-- C7: an input holding two identical copies of a valid range yields
the same rolling-window result, and in particular the same
max_days_365, as the single range: overlapping days are never counted
twice. -/
theorem C7_overlap_dedup (s e : ℤ) (h : s ≤ e) :
    maxDays365 [(s, e), (s, e)] = maxDays365 [(s, e)] ∧
    rollingMax [(s, e), (s, e)] = rollingMax [(s, e)] := by
  have hmem : ∀ q, q ∈ validIntervals [(s, e), (s, e)] ↔
      q ∈ validIntervals [(s, e)] := by
    intro q
    rw [mem_validIntervals, mem_validIntervals]
    constructor
    · rintro ⟨hq, hv⟩
      refine ⟨?_, hv⟩
      simp at hq ⊢
      tauto
    · rintro ⟨hq, hv⟩
      refine ⟨?_, hv⟩
      simp at hq ⊢
      tauto
  have heq := rollingMax_of_memEquiv hmem
  exact ⟨by rw [maxDays365, maxDays365, heq], heq⟩

theorem C7_witness :
    (0 : ℤ) ≤ (4 : ℤ) ∧
    (maxDays365 [((0 : ℤ), (4 : ℤ)), (0, 4)] = maxDays365 [((0 : ℤ), (4 : ℤ))] ∧
     rollingMax [((0 : ℤ), (4 : ℤ)), (0, 4)] = rollingMax [((0 : ℤ), (4 : ℤ))]) :=
  ⟨by decide, C7_overlap_dedup 0 4 (by decide)⟩

/-- C8: extending the end of a valid range by one day never decreases
total_days, longest_single_stay, or max_days_365. -/
theorem C8_monotonicity (Y : ℕ) (rs : List (ℤ × ℤ)) (i : ℕ) (s e : ℤ)
    (hi : i < rs.length) (hr : rs.getD i (0, 0) = (s, e)) (hse : s ≤ e) :
    totalDays Y rs ≤ totalDays Y (rs.set i (s, e + 1)) ∧
    longestSingleStay rs ≤ longestSingleStay (rs.set i (s, e + 1)) ∧
    maxDays365 rs ≤ maxDays365 (rs.set i (s, e + 1)) := by
  refine ⟨totalDays_set_mono Y rs i s e hi hr hse, ?_, ?_⟩
  · rw [longestSingleStay, longestSingleStay]
    exact foldl_longStep_set_mono rs i s e 0 hi hr hse
  · rw [maxDays365_eq_setMax, maxDays365_eq_setMax]
    exact setMax_mono (coveredDays_subset_set hi hr)

theorem C8_witness :
    0 < ([((0 : ℤ), (1 : ℤ))] : List (ℤ × ℤ)).length ∧
    ([((0 : ℤ), (1 : ℤ))].getD 0 (0, 0) = ((0 : ℤ), (1 : ℤ))) ∧
    (0 : ℤ) ≤ (1 : ℤ) ∧
    (totalDays 2024 [((0 : ℤ), (1 : ℤ))] ≤
       totalDays 2024 ([((0 : ℤ), (1 : ℤ))].set 0 (0, 1 + 1)) ∧
     longestSingleStay [((0 : ℤ), (1 : ℤ))] ≤
       longestSingleStay ([((0 : ℤ), (1 : ℤ))].set 0 (0, 1 + 1)) ∧
     maxDays365 [((0 : ℤ), (1 : ℤ))] ≤
       maxDays365 ([((0 : ℤ), (1 : ℤ))].set 0 (0, 1 + 1))) :=
  ⟨by decide, by decide, by decide,
   C8_monotonicity 2024 [((0 : ℤ), (1 : ℤ))] 0 0 1 (by decide) (by decide) (by decide)⟩

/-- C9: with at least one valid interval, the reported window bounds are
covered days with windowStart <= windowEnd at most 364 days apart, and
max_days_365 equals the number of covered days inside the reported
window; a single one-day interval yields max_days_365 = 1 with both
bounds equal to that day. -/
theorem C9_window_bounds (rs : List (ℤ × ℤ)) (h : validIntervals rs ≠ []) :
    (∃ a b : ℤ, (rollingMax rs).2.1 = some a ∧ (rollingMax rs).2.2 = some b ∧
      a ∈ coveredDays rs ∧ b ∈ coveredDays rs ∧ a ≤ b ∧ b - a ≤ 364 ∧
      (rollingMax rs).1 =
        ((coveredDays rs).filter (fun d => a ≤ d ∧ d ≤ b)).card) ∧
    (∀ d : ℤ, rollingMax [(d, d)] = (1, some d, some d)) := by
  constructor
  · have hlist : allDaysList rs ≠ [] := by
      intro hc
      rcases List.exists_mem_of_ne_nil _ h with ⟨r, hr⟩
      have hvalid := (mem_validIntervals.mp hr).2
      have : r.1 ∈ allDaysList rs :=
        mem_allDaysList.mpr ⟨r, hr, le_refl _, by omega⟩
      rw [hc] at this
      exact absurd this (List.not_mem_nil _)
    have hdays : allDays rs ≠ [] := fun hc => hlist (sortDedup_eq_nil.mp hc)
    have hD := allDays_sorted rs
    have hn : 0 < (allDays rs).length := by
      rcases Nat.eq_zero_or_pos (allDays rs).length with h0 | h0
      · exact absurd (List.length_eq_zero.mp h0) hdays
      · exact h0
    obtain ⟨hmi, hmax, hmj⟩ := (tpRun_inv hD).2.2.2 hn
    have hstople := stopIdx_le (allDays rs) (tpRun (allDays rs)).2.2.1
    have hstopgt := lt_stopIdx_self hD hmi
    have hmjlt : (tpRun (allDays rs)).2.2.2 < (allDays rs).length := by omega
    have hmilemj : (tpRun (allDays rs)).2.2.1 ≤ (tpRun (allDays rs)).2.2.2 := by
      omega
    refine ⟨(allDays rs).getD (tpRun (allDays rs)).2.2.1 0,
      (allDays rs).getD (tpRun (allDays rs)).2.2.2 0, ?_, ?_, ?_, ?_, ?_, ?_, ?_⟩
    · rw [rollingMax, if_neg h, if_neg hdays]
    · rw [rollingMax, if_neg h, if_neg hdays]
    · rw [← allDays_toFinset]
      exact List.mem_toFinset.mpr (getD_mem hmi)
    · rw [← allDays_toFinset]
      exact List.mem_toFinset.mpr (getD_mem hmjlt)
    · exact getD_mono hD hmilemj hmjlt
    · have := (stopIdx_isStop (allDays rs) (tpRun (allDays rs)).2.2.1).2.1
        (tpRun (allDays rs)).2.2.2 (by omega)
      omega
    · rw [rollingMax, if_neg h, if_neg hdays]
      show (tpRun (allDays rs)).2.1 = _
      rw [← allDays_toFinset, card_between hD hmilemj hmjlt]
      omega
  · intro d
    have hvi : validIntervals [(d, d)] = [(d, d)] := by
      rw [validIntervals]
      simp
    have hr1 : List.range 1 = [0] := rfl
    have hlist : allDaysList [(d, d)] = [d] := by
      rw [allDaysList, hvi]
      simp [hr1]
    have hdays : allDays [(d, d)] = [d] := by
      rw [allDays, hlist]
      rfl
    have hadv : advJ [d] d 1 0 = 1 := by
      rw [advJ, if_pos]
      · rfl
      · refine ⟨by norm_num, ?_⟩
        show d - d ≤ 364
        omega
    have htp : tpRun [d] = (1, 1, 0, 0) := by
      rw [tpRun]
      show List.foldl (tpStep [d]) (0, 0, 0, 0) (List.range 1) = (1, 1, 0, 0)
      rw [hr1, List.foldl_cons, List.foldl_nil]
      simp only [tpStep, List.getD_cons_zero, List.length_cons, List.length_nil,
        Nat.sub_zero]
      rw [hadv]
      norm_num
    rw [rollingMax, if_neg (by rw [hvi]; exact List.cons_ne_nil _ _)]
    simp only [hdays]
    rw [if_neg (List.cons_ne_nil _ _), htp]
    rfl

theorem C9_witness :
    validIntervals [((0 : ℤ), (1 : ℤ))] ≠ [] ∧
    ((∃ a b : ℤ,
        (rollingMax [((0 : ℤ), (1 : ℤ))]).2.1 = some a ∧
        (rollingMax [((0 : ℤ), (1 : ℤ))]).2.2 = some b ∧
        a ∈ coveredDays [((0 : ℤ), (1 : ℤ))] ∧
        b ∈ coveredDays [((0 : ℤ), (1 : ℤ))] ∧ a ≤ b ∧ b - a ≤ 364 ∧
        (rollingMax [((0 : ℤ), (1 : ℤ))]).1 =
          ((coveredDays [((0 : ℤ), (1 : ℤ))]).filter (fun d => a ≤ d ∧ d ≤ b)).card) ∧
     (∀ d : ℤ, rollingMax [(d, d)] = (1, some d, some d))) :=
  ⟨by decide, C9_window_bounds [((0 : ℤ), (1 : ℤ))] (by decide)⟩

/-- C10: total_days does not deduplicate days shared by overlapping
ranges: duplicating a valid in-year range exactly doubles total_days
(and a whole duplicated year gives 730, more than the days of the year),
while max_days_365 is unchanged by the duplication. -/
theorem C10_total_days_no_dedup (Y : ℕ) (s e : ℤ) (h1 : s ≤ e)
    (h2 : yearStart Y ≤ s) (h3 : e ≤ yearEnd Y) :
    totalDays Y [(s, e), (s, e)] = 2 * totalDays Y [(s, e)] ∧
    totalDays Y [(s, e)] = e - s + 1 ∧
    maxDays365 [(s, e), (s, e)] = maxDays365 [(s, e)] ∧
    totalDays 2023 [(yearStart 2023, yearEnd 2023), (yearStart 2023, yearEnd 2023)]
      = 730 := by
  refine ⟨?_, ?_, ?_, by decide⟩
  · rw [totalDays_cons, totalDays_cons, totalDays_nil]
    ring
  · rw [totalDays_cons, totalDays_nil, daysInYear_valid (by simp; omega),
      annualContribution]
    have hmax : max ((s, e) : ℤ × ℤ).1 (yearStart Y) = s := max_eq_left h2
    have hmin : min ((s, e) : ℤ × ℤ).2 (yearEnd Y) = e := min_eq_left h3
    rw [hmax, hmin, if_neg (by omega)]
    omega
  · have hmem : ∀ q, q ∈ validIntervals [(s, e), (s, e)] ↔
        q ∈ validIntervals [(s, e)] := by
      intro q
      rw [mem_validIntervals, mem_validIntervals]
      constructor
      · rintro ⟨hq, hv⟩
        refine ⟨?_, hv⟩
        simp at hq ⊢
        tauto
      · rintro ⟨hq, hv⟩
        refine ⟨?_, hv⟩
        simp at hq ⊢
        tauto
    rw [maxDays365, maxDays365, rollingMax_of_memEquiv hmem]

theorem C10_witness :
    yearStart 2024 ≤ yearStart 2024 + 3 ∧ yearStart 2024 + 3 ≤ yearEnd 2024 ∧
    (totalDays 2024 [(yearStart 2024, yearStart 2024 + 3),
        (yearStart 2024, yearStart 2024 + 3)] =
      2 * totalDays 2024 [(yearStart 2024, yearStart 2024 + 3)] ∧
     totalDays 2024 [(yearStart 2024, yearStart 2024 + 3)] =
       yearStart 2024 + 3 - yearStart 2024 + 1 ∧
     maxDays365 [(yearStart 2024, yearStart 2024 + 3),
        (yearStart 2024, yearStart 2024 + 3)] =
       maxDays365 [(yearStart 2024, yearStart 2024 + 3)] ∧
     totalDays 2023 [(yearStart 2023, yearEnd 2023), (yearStart 2023, yearEnd 2023)]
       = 730) :=
  ⟨by decide, by decide,
   C10_total_days_no_dedup 2024 (yearStart 2024) (yearStart 2024 + 3)
     (by decide) (by decide) (by decide)⟩

end TravelDays
